import Mathlib

/-!
Verification of the Combat_generator timeline/keyframe data model and the
generation-job interface, shallowly embedded from the TypeScript sources
(`src/frontend/src/hooks/useAnimation.ts`,
`src/frontend/src/components/Animation/Timeline.tsx`,
`src/frontend/src/hooks/useCharacterGenerator.ts`).

Keyframe times are modelled as rationals (the source uses JS numbers and
compares times with `===`, i.e. exact equality); keyframe values are an
opaque type parameter, matching the `value: any` payload.
-/

namespace CombatGen

/-- The `type` field of a track: `'character' | 'effect' | 'sound'`. -/
inductive TrackKind where
  | character
  | effect
  | sound
deriving DecidableEq, Repr

/-- A keyframe `{ time: number; value: any }` from `useAnimation.ts`. -/
structure Keyframe (α : Type) where
  time : ℚ
  value : α
deriving DecidableEq, Repr

/-- A track `{ id, name, type, keyframes }` from `useAnimation.ts`. -/
structure Track (α : Type) where
  id : String
  name : String
  type : TrackKind
  keyframes : List (Keyframe α)
deriving DecidableEq, Repr

/-- JS `Array.prototype.findIndex`, with `none` playing the role of `-1`:
the index of the first element satisfying `p`, if any. -/
def jsFindIndex (p : β → Bool) : List β → Option Nat
  | [] => none
  | x :: xs => if p x then some 0 else (jsFindIndex p xs).map (· + 1)

/-- JS indexed write `arr[i] = a` on a copy of the array: replace the
element at index `i`, leaving the list unchanged when `i` is out of range. -/
def setAt : List β → Nat → β → List β
  | [], _, _ => []
  | _ :: xs, 0, a => a :: xs
  | x :: xs, n + 1, a => x :: setAt xs n a

/-- JS indexed read `arr[i]`. -/
def getAt? : List β → Nat → Option β
  | [], _ => none
  | x :: _, 0 => some x
  | _ :: xs, n + 1 => getAt? xs n

/-- The comparator `(a, b) => a.time - b.time` as an ordering relation. -/
def kfLE (a b : Keyframe α) : Prop := a.time ≤ b.time

instance : @DecidableRel (Keyframe α) (kfLE) := fun a b =>
  inferInstanceAs (Decidable (a.time ≤ b.time))

instance : IsTotal (Keyframe α) kfLE := ⟨fun a b => le_total a.time b.time⟩

instance : IsTrans (Keyframe α) kfLE := ⟨fun _ _ _ h₁ h₂ => le_trans h₁ h₂⟩

/-- The keyframe-level body of `updateKeyframe` (useAnimation.ts:94-102):
look up a keyframe at exactly `time`; if absent, push `{time, value}` and
sort by time; otherwise overwrite the matching index in place. -/
def upsertKeyframes (ks : List (Keyframe α)) (time : ℚ) (value : α) :
    List (Keyframe α) :=
  match jsFindIndex (fun k => k.time == time) ks with
  | none => List.insertionSort kfLE (ks ++ [⟨time, value⟩])
  | some ki => setAt ks ki ⟨time, value⟩

/-- `updateKeyframe` from `useAnimation.ts:84-108`: find the track with the
given id (silently returning the previous state when there is none), apply
the keyframe upsert to it, and rebuild the track array with only that index
replaced. -/
def updateKeyframe (tracks : List (Track α)) (trackId : String) (time : ℚ)
    (value : α) : List (Track α) :=
  match jsFindIndex (fun t => t.id == trackId) tracks with
  | none => tracks
  | some ti =>
    match getAt? tracks ti with
    | none => tracks
    | some track =>
      setAt tracks ti
        { track with keyframes := upsertKeyframes track.keyframes time value }

/-- The slice of the `useAnimation` hook state that `updateKeyframe`
interacts with: the `tracks` array and the hook's `error` state (which
`updateKeyframe` never touches). -/
structure AnimationHookState (α : Type) where
  tracks : List (Track α)
  error : Option String
deriving DecidableEq, Repr

/-- `updateKeyframe` as a transition on the hook state: it calls
`setTracks` and nothing else, so `error` is carried over unchanged. -/
def updateKeyframeH (s : AnimationHookState α) (trackId : String) (time : ℚ)
    (value : α) : AnimationHookState α :=
  { s with tracks := updateKeyframe s.tracks trackId time value }

/-- A keyframe list is strictly ascending by time with no duplicate times. -/
def StrictlyAscending (ks : List (Keyframe α)) : Prop :=
  (ks.map Keyframe.time).Pairwise (· < ·)

instance (ks : List (Keyframe α)) : Decidable (StrictlyAscending ks) :=
  inferInstanceAs (Decidable ((ks.map Keyframe.time).Pairwise (· < ·)))

/-! ### Basic lemmas about the JS array primitives -/

theorem jsFindIndex_none_forall {p : β → Bool} :
    ∀ {l : List β}, jsFindIndex p l = none → ∀ a ∈ l, p a = false := by
  intro l
  induction l with
  | nil => intro _ a ha; cases ha
  | cons x xs ih =>
    intro h a ha
    by_cases hx : p x
    · simp [jsFindIndex, hx] at h
    · rcases List.mem_cons.mp ha with rfl | ha
      · simpa using hx
      · refine ih ?_ a ha
        cases hfi : jsFindIndex p xs with
        | none => rfl
        | some j => simp [jsFindIndex, hx, hfi] at h

theorem jsFindIndex_some_getAt {p : β → Bool} :
    ∀ {l : List β} {i : Nat}, jsFindIndex p l = some i →
      ∃ a, getAt? l i = some a ∧ p a = true := by
  intro l
  induction l with
  | nil => intro i h; cases h
  | cons x xs ih =>
    intro i h
    by_cases hx : p x
    · rw [jsFindIndex, if_pos hx] at h
      cases h
      exact ⟨x, rfl, hx⟩
    · rw [jsFindIndex, if_neg hx] at h
      obtain ⟨j, hj, rfl⟩ := Option.map_eq_some'.mp h
      obtain ⟨a, hget, hpa⟩ := ih hj
      exact ⟨a, hget, hpa⟩

theorem getAt?_mem : ∀ {l : List β} {i : Nat} {a : β}, getAt? l i = some a → a ∈ l := by
  intro l
  induction l with
  | nil => intro i a h; cases h
  | cons x xs ih =>
    intro i a h
    cases i with
    | zero => cases h; exact List.mem_cons_self x xs
    | succ j => exact List.mem_cons_of_mem x (ih h)

theorem getAt?_map (f : β → γ) :
    ∀ (l : List β) (i : Nat), getAt? (l.map f) i = (getAt? l i).map f := by
  intro l
  induction l with
  | nil => intro i; rfl
  | cons x xs ih =>
    intro i
    cases i with
    | zero => rfl
    | succ j => simpa using ih j

theorem setAt_map (f : β → γ) :
    ∀ (l : List β) (i : Nat) (a : β),
      (setAt l i a).map f = setAt (l.map f) i (f a) := by
  intro l
  induction l with
  | nil => intro i a; rfl
  | cons x xs ih =>
    intro i a
    cases i with
    | zero => rfl
    | succ j => simpa [setAt] using ih j a

theorem setAt_self : ∀ {l : List β} {i : Nat} {a : β},
    getAt? l i = some a → setAt l i a = l := by
  intro l
  induction l with
  | nil => intro i a h; cases h
  | cons x xs ih =>
    intro i a h
    cases i with
    | zero => cases h; rfl
    | succ j =>
      have : setAt xs j a = xs := ih h
      simp [setAt, this]

theorem mem_setAt : ∀ {l : List β} {i : Nat} {a b : β},
    b ∈ setAt l i a → b = a ∨ b ∈ l := by
  intro l
  induction l with
  | nil => intro i a b h; cases h
  | cons x xs ih =>
    intro i a b h
    cases i with
    | zero =>
      rcases List.mem_cons.mp h with rfl | h
      · exact Or.inl rfl
      · exact Or.inr (List.mem_cons_of_mem x h)
    | succ j =>
      rcases List.mem_cons.mp h with rfl | h
      · exact Or.inr (List.mem_cons_self b xs)
      · rcases ih h with h' | h'
        · exact Or.inl h'
        · exact Or.inr (List.mem_cons_of_mem x h')

theorem getAt?_setAt_self : ∀ {l : List β} {i : Nat} {a b : β},
    getAt? l i = some a → getAt? (setAt l i b) i = some b := by
  intro l
  induction l with
  | nil => intro i a b h; cases h
  | cons x xs ih =>
    intro i a b h
    cases i with
    | zero => rfl
    | succ j =>
      have h' : getAt? xs j = some a := h
      have hres : getAt? (setAt xs j b) j = some b := ih h'
      simpa [setAt, getAt?] using hres

theorem getAt?_setAt_ne : ∀ (l : List β) (i j : Nat) (a : β),
    j ≠ i → getAt? (setAt l i a) j = getAt? l j := by
  intro l
  induction l with
  | nil => intro i j a _; cases i <;> rfl
  | cons x xs ih =>
    intro i j a hne
    cases i with
    | zero =>
      cases j with
      | zero => exact absurd rfl hne
      | succ j' => rfl
    | succ i' =>
      cases j with
      | zero => rfl
      | succ j' =>
        have hne' : j' ≠ i' := fun h => hne (by rw [h])
        have := ih i' j' a hne'
        simpa [setAt, getAt?] using this

theorem setAt_length : ∀ (l : List β) (i : Nat) (a : β),
    (setAt l i a).length = l.length := by
  intro l
  induction l with
  | nil => intro i a; rfl
  | cons x xs ih =>
    intro i a
    cases i with
    | zero => rfl
    | succ j => simpa [setAt] using ih j a

theorem jsFindIndex_setAt {p : β → Bool} :
    ∀ {l : List β} {i : Nat} {b : β}, jsFindIndex p l = some i → p b = true →
      jsFindIndex p (setAt l i b) = some i := by
  intro l
  induction l with
  | nil => intro i b h _; cases h
  | cons x xs ih =>
    intro i b h hb
    by_cases hx : p x
    · rw [jsFindIndex, if_pos hx] at h
      cases h
      simp [setAt, jsFindIndex, hb]
    · rw [jsFindIndex, if_neg hx] at h
      obtain ⟨j, hj, rfl⟩ := Option.map_eq_some'.mp h
      have := ih hj hb
      simp [setAt, jsFindIndex, hx, this]

/-! ### Sortedness of upserted keyframe lists -/

theorem nodup_times_of_strictlyAscending {ks : List (Keyframe α)}
    (h : StrictlyAscending ks) : (ks.map Keyframe.time).Nodup :=
  h.imp ne_of_lt

theorem strictlyAscending_of_le_nodup {ks : List (Keyframe α)}
    (hle : (ks.map Keyframe.time).Pairwise (· ≤ ·))
    (hnd : (ks.map Keyframe.time).Nodup) : StrictlyAscending ks :=
  (hle.and hnd).imp fun hab => lt_of_le_of_ne hab.1 hab.2

theorem strictlyAscending_insert {ks : List (Keyframe α)} {t : ℚ} {v : α}
    (h : StrictlyAscending ks) (hnot : ∀ k ∈ ks, k.time ≠ t) :
    StrictlyAscending (List.insertionSort kfLE (ks ++ [⟨t, v⟩])) := by
  have hs := List.sorted_insertionSort kfLE (ks ++ [(⟨t, v⟩ : Keyframe α)])
  unfold List.Sorted at hs
  have hsorted : ((List.insertionSort kfLE (ks ++ [⟨t, v⟩])).map
      Keyframe.time).Pairwise (· ≤ ·) :=
    List.pairwise_map.mpr (hs.imp fun hab => hab)
  have hperm : List.Perm
      ((List.insertionSort kfLE (ks ++ [(⟨t, v⟩ : Keyframe α)])).map
        Keyframe.time)
      ((ks ++ [(⟨t, v⟩ : Keyframe α)]).map Keyframe.time) :=
    (List.perm_insertionSort kfLE (ks ++ [(⟨t, v⟩ : Keyframe α)])).map
      Keyframe.time
  have hnd : ((ks ++ [(⟨t, v⟩ : Keyframe α)]).map Keyframe.time).Nodup := by
    rw [List.map_append]
    refine List.nodup_append.mpr ⟨nodup_times_of_strictlyAscending h, ?_, ?_⟩
    · simp
    · intro x hx hx'
      simp only [List.map_cons, List.map_nil, List.mem_singleton] at hx'
      obtain ⟨k, hk, rfl⟩ := List.mem_map.mp hx
      exact hnot k hk hx'
  exact strictlyAscending_of_le_nodup hsorted (hperm.nodup_iff.mpr hnd)

theorem strictlyAscending_upsertKeyframes {ks : List (Keyframe α)} {t : ℚ}
    {v : α} (h : StrictlyAscending ks) :
    StrictlyAscending (upsertKeyframes ks t v) := by
  unfold upsertKeyframes
  cases hfi : jsFindIndex (fun k => k.time == t) ks with
  | none =>
    refine strictlyAscending_insert h fun k hk => ?_
    have := jsFindIndex_none_forall hfi k hk
    simpa using this
  | some ki =>
    obtain ⟨a, hget, hpa⟩ := jsFindIndex_some_getAt hfi
    have hat : a.time = t := by simpa using hpa
    have hgt : getAt? (ks.map Keyframe.time) ki = some t := by
      rw [getAt?_map, hget, Option.map_some', hat]
    have hmap : (setAt ks ki (⟨t, v⟩ : Keyframe α)).map Keyframe.time =
        ks.map Keyframe.time := by
      rw [setAt_map]
      exact setAt_self hgt
    unfold StrictlyAscending
    rw [hmap]
    exact h

theorem mem_upsertKeyframes {ks : List (Keyframe α)} (t : ℚ) (v : α) :
    (⟨t, v⟩ : Keyframe α) ∈ upsertKeyframes ks t v := by
  unfold upsertKeyframes
  cases hfi : jsFindIndex (fun k => k.time == t) ks with
  | none =>
    rw [List.mem_insertionSort]
    exact List.mem_append_right ks (List.mem_singleton.mpr rfl)
  | some ki =>
    obtain ⟨a, hget, _⟩ := jsFindIndex_some_getAt hfi
    exact getAt?_mem (getAt?_setAt_self hget)

theorem filter_time_eq_single {ks : List (Keyframe α)} {t : ℚ} {v : α}
    (hnd : (ks.map Keyframe.time).Nodup) (hmem : (⟨t, v⟩ : Keyframe α) ∈ ks) :
    ks.filter (fun k => k.time == t) = [⟨t, v⟩] := by
  induction ks with
  | nil => cases hmem
  | cons x xs ih =>
    have hnd' : (xs.map Keyframe.time).Nodup := (List.nodup_cons.mp hnd).2
    have hxnot : x.time ∉ xs.map Keyframe.time := (List.nodup_cons.mp hnd).1
    rcases List.mem_cons.mp hmem with rfl | hmem'
    · have hrest : xs.filter (fun k => k.time == t) = [] := by
        rw [List.filter_eq_nil_iff]
        intro k hk hkt
        have hkt' : k.time = t := by simpa using hkt
        exact hxnot (List.mem_map.mpr ⟨k, hk, by simpa using hkt'⟩)
      simp [List.filter_cons, hrest]
    · have htmem : t ∈ xs.map Keyframe.time :=
        List.mem_map.mpr ⟨⟨t, v⟩, hmem', rfl⟩
      have hxt : ¬(x.time == t) = true := by
        intro hc
        have : x.time = t := by simpa using hc
        exact hxnot (by rw [this]; exact htmem)
      simp only [List.filter_cons, hxt, if_neg, Bool.false_eq_true,
        not_false_iff]
      exact ih hnd' hmem'

/-! ### Track-level behaviour of updateKeyframe -/

theorem jsFindIndex_eq_none {p : β → Bool} :
    ∀ {l : List β}, (∀ a ∈ l, p a = false) → jsFindIndex p l = none := by
  intro l
  induction l with
  | nil => intro _; rfl
  | cons x xs ih =>
    intro h
    have hx : p x = false := h x (List.mem_cons_self x xs)
    have hxs : jsFindIndex p xs = none :=
      ih fun a ha => h a (List.mem_cons_of_mem x ha)
    simp [jsFindIndex, hx, hxs]

/-- The track `updateKeyframe` operates on: the first track in the array
whose `id` matches, found with `findIndex` exactly as in the source. -/
def findTrack (tracks : List (Track α)) (tid : String) : Option (Track α) :=
  match jsFindIndex (fun tr => tr.id == tid) tracks with
  | none => none
  | some i => getAt? tracks i

theorem findTrack_mem {tracks : List (Track α)} {tid : String}
    {tr0 : Track α} (h : findTrack tracks tid = some tr0) : tr0 ∈ tracks := by
  unfold findTrack at h
  cases hfi : jsFindIndex (fun tr => tr.id == tid) tracks with
  | none => rw [hfi] at h; cases h
  | some i => rw [hfi] at h; exact getAt?_mem h

theorem findTrack_updateKeyframe {tracks : List (Track α)} {tid : String}
    {tr0 : Track α} (t : ℚ) (v : α) (h : findTrack tracks tid = some tr0) :
    findTrack (updateKeyframe tracks tid t v) tid =
      some { tr0 with keyframes := upsertKeyframes tr0.keyframes t v } := by
  unfold findTrack at h
  cases hfi : jsFindIndex (fun tr => tr.id == tid) tracks with
  | none => rw [hfi] at h; exact Option.noConfusion h
  | some ti =>
    rw [hfi] at h
    have h : getAt? tracks ti = some tr0 := h
    obtain ⟨a, hget, hpa⟩ := jsFindIndex_some_getAt hfi
    rw [h] at hget
    injection hget with heq
    subst heq
    have hupd : updateKeyframe tracks tid t v = setAt tracks ti
        { tr0 with keyframes := upsertKeyframes tr0.keyframes t v } := by
      simp only [updateKeyframe, hfi, h]
    have hp1 : (({ tr0 with
        keyframes := upsertKeyframes tr0.keyframes t v } : Track α).id ==
          tid) = true := hpa
    unfold findTrack
    rw [hupd, jsFindIndex_setAt hfi hp1]
    exact getAt?_setAt_self h

theorem strictlyAscending_updateKeyframe {tracks : List (Track α)}
    {tid : String} {t : ℚ} {v : α}
    (hall : ∀ tr ∈ tracks, StrictlyAscending tr.keyframes) :
    ∀ tr ∈ updateKeyframe tracks tid t v, StrictlyAscending tr.keyframes := by
  intro tr htr
  unfold updateKeyframe at htr
  cases hfi : jsFindIndex (fun tr => tr.id == tid) tracks with
  | none => rw [hfi] at htr; exact hall tr htr
  | some ti =>
    rw [hfi] at htr
    have htr : tr ∈ (match getAt? tracks ti with
      | none => tracks
      | some track => setAt tracks ti
          { track with
            keyframes := upsertKeyframes track.keyframes t v }) := htr
    cases hget : getAt? tracks ti with
    | none => rw [hget] at htr; exact hall tr htr
    | some track =>
      rw [hget] at htr
      have htr : tr ∈ setAt tracks ti
          { track with keyframes := upsertKeyframes track.keyframes t v } :=
        htr
      rcases mem_setAt htr with rfl | htr'
      · exact strictlyAscending_upsertKeyframes
          (hall track (getAt?_mem hget))
      · exact hall tr htr'

/-- A finite sequence of `updateKeyframe` calls, each given as
`(trackId, time, value)`, applied in order to the track array. -/
def applyUpserts (tracks : List (Track α)) :
    List (String × ℚ × α) → List (Track α)
  | [] => tracks
  | (tid, t, v) :: ops => applyUpserts (updateKeyframe tracks tid t v) ops

/-- C1: starting from any track array whose tracks all have strictly
ascending, duplicate-free keyframe times, every finite sequence of
`updateKeyframe` calls again yields tracks whose keyframe lists are
strictly ascending by time with no duplicate times. -/
theorem upsert_sequence_preserves_strictlyAscending {α : Type}
    (ops : List (String × ℚ × α)) (tracks : List (Track α))
    (hall : ∀ tr ∈ tracks, StrictlyAscending tr.keyframes) :
    ∀ tr ∈ applyUpserts tracks ops, StrictlyAscending tr.keyframes := by
  induction ops generalizing tracks with
  | nil => exact hall
  | cons op ops ih =>
    obtain ⟨tid, t, v⟩ := op
    exact ih (updateKeyframe tracks tid t v)
      (strictlyAscending_updateKeyframe hall)

/-- Witness for C1 on a concrete track array and call sequence. -/
theorem upsert_sequence_preserves_strictlyAscending_witness :
    (∀ tr ∈ [(⟨"a", "A", .character, [⟨1, 0⟩, ⟨3, 0⟩]⟩ : Track Int)],
      StrictlyAscending tr.keyframes) ∧
    ∀ tr ∈ applyUpserts [(⟨"a", "A", .character, [⟨1, 0⟩, ⟨3, 0⟩]⟩ : Track Int)]
        [("a", 2, 7), ("a", 1, 9), ("b", 5, 4)],
      StrictlyAscending tr.keyframes :=
  ⟨by decide, upsert_sequence_preserves_strictlyAscending
    [("a", 2, 7), ("a", 1, 9), ("b", 5, 4)]
    [⟨"a", "A", .character, [⟨1, 0⟩, ⟨3, 0⟩]⟩] (by decide)⟩

/-- C2: on a track array satisfying the sorted-unique invariant and
containing the addressed track, `updateKeyframe tid t v1` followed by
`updateKeyframe tid t v2` leaves that track with exactly one keyframe at
time `t`, whose value is `v2`. -/
theorem upsert_twice_replaces_in_place {α : Type}
    (tracks : List (Track α)) (tid : String) (t : ℚ) (v1 v2 : α)
    (tr0 : Track α) (hfind : findTrack tracks tid = some tr0)
    (hall : ∀ tr ∈ tracks, StrictlyAscending tr.keyframes) :
    ∃ tr', findTrack
        (updateKeyframe (updateKeyframe tracks tid t v1) tid t v2) tid =
          some tr' ∧
      tr'.keyframes.filter (fun k => k.time == t) = [⟨t, v2⟩] := by
  have h1 := findTrack_updateKeyframe t v1 hfind
  have h2 := findTrack_updateKeyframe t v2 h1
  refine ⟨_, h2, ?_⟩
  have hsa0 : StrictlyAscending tr0.keyframes :=
    hall tr0 (findTrack_mem hfind)
  have hsa1 : StrictlyAscending (upsertKeyframes tr0.keyframes t v1) :=
    strictlyAscending_upsertKeyframes hsa0
  have hsa2 : StrictlyAscending
      (upsertKeyframes (upsertKeyframes tr0.keyframes t v1) t v2) :=
    strictlyAscending_upsertKeyframes hsa1
  exact filter_time_eq_single (nodup_times_of_strictlyAscending hsa2)
    (mem_upsertKeyframes t v2)

/-- Witness for C2 on a concrete track array. -/
theorem upsert_twice_replaces_in_place_witness :
    (findTrack [(⟨"a", "A", .character, [⟨1, 0⟩, ⟨3, 0⟩]⟩ : Track Int)] "a" =
      some ⟨"a", "A", .character, [⟨1, 0⟩, ⟨3, 0⟩]⟩) ∧
    ∃ tr', findTrack (updateKeyframe (updateKeyframe
        [(⟨"a", "A", .character, [⟨1, 0⟩, ⟨3, 0⟩]⟩ : Track Int)]
        "a" 2 7) "a" 2 9) "a" = some tr' ∧
      tr'.keyframes.filter (fun k => k.time == 2) = [⟨2, 9⟩] :=
  ⟨by decide, upsert_twice_replaces_in_place
    [⟨"a", "A", .character, [⟨1, 0⟩, ⟨3, 0⟩]⟩] "a" 2 7 9
    ⟨"a", "A", .character, [⟨1, 0⟩, ⟨3, 0⟩]⟩ (by decide) (by decide)⟩

theorem updateKeyframe_none {tracks : List (Track α)} {tid : String}
    (t : ℚ) (v : α)
    (hfi : jsFindIndex (fun tr => tr.id == tid) tracks = none) :
    updateKeyframe tracks tid t v = tracks := by
  unfold updateKeyframe
  rw [hfi]

theorem updateKeyframe_some {tracks : List (Track α)} {tid : String}
    {ti : Nat} {track : Track α} (t : ℚ) (v : α)
    (hfi : jsFindIndex (fun tr => tr.id == tid) tracks = some ti)
    (hget : getAt? tracks ti = some track) :
    updateKeyframe tracks tid t v = setAt tracks ti
      { track with keyframes := upsertKeyframes track.keyframes t v } := by
  unfold updateKeyframe
  rw [hfi]
  show (match getAt? tracks ti with
    | none => tracks
    | some track => setAt tracks ti
        { track with keyframes := upsertKeyframes track.keyframes t v }) = _
  rw [hget]

/-- C6: `updateKeyframe` touches at most the keyframes of the first track
whose id matches: the array length is unchanged, every track keeps its
`id`, `name` and `type`, every track whose id differs from `trackId` is
kept exactly as it was, and when no track matches the whole array is
returned unchanged (no partial application on failure). -/
theorem updateKeyframe_frame_effect {α : Type} (tracks : List (Track α))
    (tid : String) (t : ℚ) (v : α) :
    (updateKeyframe tracks tid t v).length = tracks.length ∧
    (∀ i a, getAt? tracks i = some a →
      ∃ b, getAt? (updateKeyframe tracks tid t v) i = some b ∧
        b.id = a.id ∧ b.name = a.name ∧ b.type = a.type) ∧
    (∀ i a, getAt? tracks i = some a → a.id ≠ tid →
      getAt? (updateKeyframe tracks tid t v) i = some a) ∧
    ((∀ tr ∈ tracks, tr.id ≠ tid) → updateKeyframe tracks tid t v = tracks) := by
  have hd : (∀ tr ∈ tracks, tr.id ≠ tid) →
      updateKeyframe tracks tid t v = tracks := by
    intro hids
    exact updateKeyframe_none t v
      (jsFindIndex_eq_none fun a ha => beq_eq_false_iff_ne.mpr (hids a ha))
  cases hfi : jsFindIndex (fun tr => tr.id == tid) tracks with
  | none =>
    have hupd := updateKeyframe_none t v hfi
    refine ⟨by rw [hupd], ?_, ?_, hd⟩
    · intro i a hgi
      exact ⟨a, by rw [hupd]; exact hgi, rfl, rfl, rfl⟩
    · intro i a hgi _
      rw [hupd]; exact hgi
  | some ti =>
    obtain ⟨a, hget, hpa⟩ := jsFindIndex_some_getAt hfi
    have hupd := updateKeyframe_some t v hfi hget
    have haid : a.id = tid := by simpa using hpa
    refine ⟨by rw [hupd, setAt_length], ?_, ?_, hd⟩
    · intro i c hgi
      by_cases hi : i = ti
      · subst hi
        rw [hget] at hgi
        injection hgi with hac
        subst hac
        exact ⟨{ a with keyframes := upsertKeyframes a.keyframes t v },
          by rw [hupd]; exact getAt?_setAt_self hget, rfl, rfl, rfl⟩
      · refine ⟨c, ?_, rfl, rfl, rfl⟩
        rw [hupd]
        exact (getAt?_setAt_ne tracks ti i
          { a with keyframes := upsertKeyframes a.keyframes t v } hi).trans hgi
    · intro i c hgi hne
      have hi : i ≠ ti := by
        intro hie
        subst hie
        rw [hget] at hgi
        injection hgi with hac
        subst hac
        exact hne haid
      rw [hupd]
      exact (getAt?_setAt_ne tracks ti i
        { a with keyframes := upsertKeyframes a.keyframes t v } hi).trans hgi

/-- Witness for C6 on a concrete two-track array. -/
theorem updateKeyframe_frame_effect_witness :
    (updateKeyframe [(⟨"a", "A", .character, [⟨1, 2⟩]⟩ : Track Int),
      ⟨"b", "B", .sound, []⟩] "a" 1 5).length =
      ([(⟨"a", "A", .character, [⟨1, 2⟩]⟩ : Track Int),
        ⟨"b", "B", .sound, []⟩] : List (Track Int)).length ∧
    (∃ b, getAt? (updateKeyframe [(⟨"a", "A", .character, [⟨1, 2⟩]⟩ :
        Track Int), ⟨"b", "B", .sound, []⟩] "a" 1 5) 0 = some b ∧
      b.id = (⟨"a", "A", .character, [⟨1, 2⟩]⟩ : Track Int).id ∧
      b.name = (⟨"a", "A", .character, [⟨1, 2⟩]⟩ : Track Int).name ∧
      b.type = (⟨"a", "A", .character, [⟨1, 2⟩]⟩ : Track Int).type) ∧
    getAt? (updateKeyframe [(⟨"a", "A", .character, [⟨1, 2⟩]⟩ : Track Int),
      ⟨"b", "B", .sound, []⟩] "a" 1 5) 1 = some ⟨"b", "B", .sound, []⟩ :=
  ⟨(updateKeyframe_frame_effect [⟨"a", "A", .character, [⟨1, 2⟩]⟩,
      ⟨"b", "B", .sound, []⟩] "a" 1 5).1,
    (updateKeyframe_frame_effect [⟨"a", "A", .character, [⟨1, 2⟩]⟩,
      ⟨"b", "B", .sound, []⟩] "a" 1 5).2.1 0 ⟨"a", "A", .character, [⟨1, 2⟩]⟩
      (by decide),
    (updateKeyframe_frame_effect [⟨"a", "A", .character, [⟨1, 2⟩]⟩,
      ⟨"b", "B", .sound, []⟩] "a" 1 5).2.2.1 1 ⟨"b", "B", .sound, []⟩
      (by decide) (by decide)⟩

/-- C5 counterexample: calling `updateKeyframe` with a track id that does
not exist returns the previous state unchanged and leaves the hook's
`error` state `none` — the call succeeds silently instead of failing with
`NotFound` (useAnimation.ts:90-91 is `if (trackIndex === -1) return
prevTracks;`). -/
theorem updateKeyframe_unknown_track_no_error_cx :
    updateKeyframeH (⟨[], none⟩ : AnimationHookState Int) "a" 0 0 =
      (⟨[], none⟩ : AnimationHookState Int) ∧
    (updateKeyframeH (⟨[], none⟩ : AnimationHookState Int) "a" 0 0).error =
      none := by
  decide

/-- C5 amended: calling `updateKeyframe` with a `trackId` (track of the
current animation) that does not exist is a silent no-op: the whole hook
state, including the `error` field, is returned unchanged, and no
`NotFound` error is signalled. -/
theorem updateKeyframe_unknown_track_silent_noop {α : Type}
    (s : AnimationHookState α) (tid : String) (t : ℚ) (v : α)
    (h : ∀ tr ∈ s.tracks, tr.id ≠ tid) :
    updateKeyframeH s tid t v = s := by
  unfold updateKeyframeH
  rw [updateKeyframe_none t v
    (jsFindIndex_eq_none fun a ha => beq_eq_false_iff_ne.mpr (h a ha))]

/-- Witness for the amended C5 on a concrete state. -/
theorem updateKeyframe_unknown_track_silent_noop_witness :
    (∀ tr ∈ ([⟨"b", "B", .sound, []⟩] : List (Track Int)), tr.id ≠ "a") ∧
    updateKeyframeH (⟨[⟨"b", "B", .sound, []⟩], some "boom"⟩ :
        AnimationHookState Int) "a" 3 7 =
      ⟨[⟨"b", "B", .sound, []⟩], some "boom"⟩ :=
  ⟨by decide, updateKeyframe_unknown_track_silent_noop
    ⟨[⟨"b", "B", .sound, []⟩], some "boom"⟩ "a" 3 7 (by decide)⟩

/-- C8 counterexample: a keyframe update with negative time `-1` is not
rejected — `updateKeyframe` inserts the keyframe and changes the track,
and the hook's `error` state stays `none`, so no `ValidationError` is
raised at update time. -/
theorem updateKeyframe_negative_time_cx :
    updateKeyframeH (⟨[⟨"a", "A", .character, []⟩], none⟩ :
        AnimationHookState Int) "a" (-1) 0 =
      ⟨[⟨"a", "A", .character, [⟨-1, 0⟩]⟩], none⟩ ∧
    updateKeyframeH (⟨[⟨"a", "A", .character, []⟩], none⟩ :
        AnimationHookState Int) "a" (-1) 0 ≠
      ⟨[⟨"a", "A", .character, []⟩], none⟩ := by
  decide

/-- C8 amended: `updateKeyframe` performs no validation of the requested
time: a negative time is upserted exactly like any other time — the
addressed track afterwards carries exactly one keyframe at that negative
time with the given value — and the hook's `error` state is untouched. -/
theorem updateKeyframe_accepts_negative_time {α : Type}
    (s : AnimationHookState α) (tid : String) (t : ℚ) (v : α)
    (tr0 : Track α) (ht : t < 0)
    (hfind : findTrack s.tracks tid = some tr0)
    (hall : ∀ tr ∈ s.tracks, StrictlyAscending tr.keyframes) :
    ∃ tr', findTrack (updateKeyframeH s tid t v).tracks tid = some tr' ∧
      tr'.keyframes.filter (fun k => k.time == t) = [⟨t, v⟩] ∧
      (updateKeyframeH s tid t v).error = s.error := by
  refine ⟨_, findTrack_updateKeyframe t v hfind, ?_, rfl⟩
  have hsa0 : StrictlyAscending tr0.keyframes :=
    hall tr0 (findTrack_mem hfind)
  have hsa1 : StrictlyAscending (upsertKeyframes tr0.keyframes t v) :=
    strictlyAscending_upsertKeyframes hsa0
  exact filter_time_eq_single (nodup_times_of_strictlyAscending hsa1)
    (mem_upsertKeyframes t v)

/-- Witness for the amended C8 on a concrete state. -/
theorem updateKeyframe_accepts_negative_time_witness :
    ((-1 : ℚ) < 0) ∧
    (findTrack ([⟨"a", "A", .character, [⟨1, 2⟩]⟩] : List (Track Int)) "a" =
      some ⟨"a", "A", .character, [⟨1, 2⟩]⟩) ∧
    ∃ tr', findTrack (updateKeyframeH (⟨[⟨"a", "A", .character, [⟨1, 2⟩]⟩],
        none⟩ : AnimationHookState Int) "a" (-1) 9).tracks "a" = some tr' ∧
      tr'.keyframes.filter (fun k => k.time == -1) = [⟨-1, 9⟩] ∧
      (updateKeyframeH (⟨[⟨"a", "A", .character, [⟨1, 2⟩]⟩], none⟩ :
        AnimationHookState Int) "a" (-1) 9).error =
        (⟨[⟨"a", "A", .character, [⟨1, 2⟩]⟩], none⟩ :
          AnimationHookState Int).error :=
  ⟨by decide, by decide, updateKeyframe_accepts_negative_time
    ⟨[⟨"a", "A", .character, [⟨1, 2⟩]⟩], none⟩ "a" (-1) 9
    ⟨"a", "A", .character, [⟨1, 2⟩]⟩ (by decide) (by decide) (by decide)⟩

/-! ### Timeline component (Timeline.tsx) -/

/-- The Timeline component state touched by `animate`/`stopAnimation`:
`currentTime` (the playhead), the `isPlaying` flag, and an instrumentation
counter `cycles` recording how often the wrap branch (the
`stopAnimation(); return 0;` cycle-complete signal of Timeline.tsx:41-43)
has fired. -/
structure TimelineState where
  currentTime : ℚ
  isPlaying : Bool
  cycles : Nat
deriving DecidableEq, Repr

/-- `stopAnimation` (Timeline.tsx:28-35): clears `isPlaying` when set. -/
def stopAnimation (s : TimelineState) : TimelineState :=
  if s.isPlaying then { s with isPlaying := false } else s

/-- One tick of `animate` (Timeline.tsx:37-48): add the fixed 60fps step
`0.016` (= 16/1000 as an exact rational) to the playhead; on reaching or
passing `duration`, call `stopAnimation`, signal the completed cycle
(counted in `cycles`) and wrap the playhead to 0. The callback re-requests
the next animation frame unconditionally (line 47), so successive ticks
are modelled as iterated application of this function. -/
def animate (duration : ℚ) (s : TimelineState) : TimelineState :=
  let newTime := s.currentTime + 16 / 1000
  if newTime ≥ duration then
    { stopAnimation s with currentTime := 0, cycles := s.cycles + 1 }
  else
    { s with currentTime := newTime }

theorem animate_of_ge {duration : ℚ} {s : TimelineState}
    (h : s.currentTime + 16 / 1000 ≥ duration) :
    animate duration s =
      { stopAnimation s with currentTime := 0, cycles := s.cycles + 1 } := by
  simp only [animate]
  rw [if_pos h]

theorem animate_of_lt {duration : ℚ} {s : TimelineState}
    (h : s.currentTime + 16 / 1000 < duration) :
    animate duration s = { s with currentTime := s.currentTime + 16 / 1000 } := by
  simp only [animate]
  rw [if_neg (not_le.mpr h)]

/-- C4: on a Timeline with positive duration, whenever a tick would push
the playhead past `duration` the playhead wraps to 0 and the
cycle-complete signal fires exactly once (the `cycles` counter increments
by exactly 1, and it stays unchanged on every non-wrapping tick), after
which ticking continues from 0: the following tick computes `0 + 0.016`
(wrapping again only in the degenerate case `duration ≤ 0.016`). -/
theorem animate_wrap_behavior (d : ℚ) (s : TimelineState) (hd : 0 < d) :
    (d < s.currentTime + 16 / 1000 →
      (animate d s).currentTime = 0 ∧
      (animate d s).cycles = s.cycles + 1 ∧
      (animate d (animate d s)).currentTime =
        if 16 / 1000 ≥ d then 0 else 16 / 1000) ∧
    (s.currentTime + 16 / 1000 < d →
      (animate d s).currentTime = s.currentTime + 16 / 1000 ∧
      (animate d s).cycles = s.cycles) := by
  constructor
  · intro h
    have hge : s.currentTime + 16 / 1000 ≥ d := le_of_lt h
    have h1 := animate_of_ge hge
    refine ⟨by rw [h1], by rw [h1], ?_⟩
    by_cases hc : (16 : ℚ) / 1000 ≥ d
    · have h2 : (animate d s).currentTime + 16 / 1000 ≥ d := by
        rw [h1]
        show (0 : ℚ) + 16 / 1000 ≥ d
        rw [zero_add]
        exact hc
      rw [animate_of_ge h2, if_pos hc]
    · have h2 : (animate d s).currentTime + 16 / 1000 < d := by
        rw [h1]
        show (0 : ℚ) + 16 / 1000 < d
        rw [zero_add]
        exact not_le.mp hc
      rw [animate_of_lt h2, if_neg hc]
      show (animate d s).currentTime + 16 / 1000 = 16 / 1000
      rw [h1]
      show (0 : ℚ) + 16 / 1000 = 16 / 1000
      rw [zero_add]
  · intro h
    rw [animate_of_lt h]
    exact ⟨rfl, rfl⟩

/-- Witness for C4: the theorem applied to `duration = 30` and the
concrete state `⟨29, true, 0⟩`, with the positivity hypothesis
discharged. -/
theorem animate_wrap_behavior_witness :
    (0 : ℚ) < 30 ∧
    ((30 < (29 : ℚ) + 16 / 1000 →
      (animate 30 ⟨29, true, 0⟩).currentTime = 0 ∧
      (animate 30 ⟨29, true, 0⟩).cycles = 0 + 1 ∧
      (animate 30 (animate 30 ⟨29, true, 0⟩)).currentTime =
        if (16 : ℚ) / 1000 ≥ 30 then 0 else 16 / 1000) ∧
    ((29 : ℚ) + 16 / 1000 < 30 →
      (animate 30 ⟨29, true, 0⟩).currentTime = 29 + 16 / 1000 ∧
      (animate 30 ⟨29, true, 0⟩).cycles = 0)) :=
  ⟨by decide, animate_wrap_behavior 30 ⟨29, true, 0⟩ (by decide)⟩

/-- The Timeline component state addressed by the playhead slider:
`currentTime` and `duration`. -/
structure TimelineComponentState where
  currentTime : ℚ
  duration : ℚ
deriving DecidableEq, Repr

/-- `handleTimeChange` (Timeline.tsx:50-52): stores the slider's new value
as the playhead via `setCurrentTime(newValue)`, with no further
processing. -/
def handleTimeChange (s : TimelineComponentState) (newValue : ℚ) :
    TimelineComponentState :=
  { s with currentTime := newValue }

/-- C9 counterexample: `setPlayhead(-5)` on a Timeline with duration 30
stores `-5` itself; the resulting playhead does not lie in `[0, 30]`, so
`setPlayhead` does not clamp to `[0, duration]`. -/
theorem handleTimeChange_no_clamp_cx :
    (handleTimeChange ⟨0, 30⟩ (-5)).currentTime = -5 ∧
    ¬(0 ≤ (handleTimeChange ⟨0, 30⟩ (-5)).currentTime ∧
      (handleTimeChange ⟨0, 30⟩ (-5)).currentTime ≤
        (handleTimeChange ⟨0, 30⟩ (-5)).duration) := by
  decide

/-- C9 amended: `setPlayhead(t)` stores the requested time exactly as
given — no clamping to `[0, duration]` is performed — and leaves the
duration unchanged. -/
theorem handleTimeChange_sets_exact (s : TimelineComponentState) (t : ℚ) :
    (handleTimeChange s t).currentTime = t ∧
    (handleTimeChange s t).duration = s.duration :=
  ⟨rfl, rfl⟩

/-! ### Character generation form (Timeline.tsx CharacterPanel) -/

/-- JS `String.prototype.trim` on the prompt: strip leading and trailing
whitespace (structurally, so that concrete prompts evaluate). -/
def jsTrim (s : String) : String :=
  ⟨((s.data.dropWhile Char.isWhitespace).reverse.dropWhile
      Char.isWhitespace).reverse⟩

/-- The `style` select values of the character form. -/
inductive CharacterStyle where
  | modern
  | fantasy
  | scifi
  | historical
deriving DecidableEq, Repr

/-- `validateForm` (Timeline.tsx CharacterPanel): a blank prompt
(`!prompt.trim()`) fails validation and raises the warning snackbar;
returns the validation verdict together with the snackbar message set. -/
def validateForm (prompt : String) : Bool × Option String :=
  if jsTrim prompt = "" then
    (false, some "Please enter a character description")
  else
    (true, none)

/-- `handleGenerate` (Timeline.tsx CharacterPanel) up to the submission
boundary: when `validateForm` fails it returns before calling
`generateCharacter`, so no generation request is issued and no job can be
created; otherwise the request `(prompt, style)` is handed to
`generateCharacter`. `some` is the issued request, `none` means early
return. -/
def handleGenerate (prompt : String) (style : CharacterStyle) :
    Option (String × CharacterStyle) :=
  if (validateForm prompt).1 then some (prompt, style) else none

/-- C7: a prompt that is empty or whitespace-only (i.e. trims to the
empty string) is rejected synchronously by `validateForm` with the
validation warning, and `handleGenerate` returns without issuing any
generation request, so no job is created. -/
theorem empty_prompt_rejected (prompt : String) (style : CharacterStyle)
    (h : jsTrim prompt = "") :
    handleGenerate prompt style = none ∧
    (validateForm prompt).2 = some "Please enter a character description" := by
  constructor
  · simp [handleGenerate, validateForm, h]
  · simp [validateForm, h]

/-- Witness for C7 on the whitespace-only prompt `"  "`. -/
theorem empty_prompt_rejected_witness :
    jsTrim "  " = "" ∧
    (handleGenerate "  " CharacterStyle.modern = none ∧
      (validateForm "  ").2 = some "Please enter a character description") :=
  ⟨by decide, empty_prompt_rejected "  " CharacterStyle.modern (by decide)⟩

/-! ### useCharacterGenerator hook -/

/-- The data an axios error response may carry (`response.data`). -/
structure APIErrorData where
  message : Option String
  error : Option String
deriving DecidableEq, Repr

/-- The values `generateCharacter` can throw: a plain `new Error(msg)` or
an axios error whose optional response data feeds the catch block. -/
inductive ThrownError where
  | plain (msg : String)
  | axios (respData : Option APIErrorData)
deriving DecidableEq, Repr

/-- JS `a || b` on an optional string field: an absent or empty string is
falsy and falls through to `b`. -/
def jsOrString (a : Option String) (b : String) : String :=
  match a with
  | some s => if s = "" then b else s
  | none => b

/-- The catch block's message chain
(`error.response?.data?.message || error.response?.data?.error ||
'Failed to generate character'`, useCharacterGenerator.ts:66-68): a plain
`Error` has no `response`, so it falls to the final fallback. -/
def catchMessage : ThrownError → String
  | .axios (some d) =>
    jsOrString d.message (jsOrString d.error "Failed to generate character")
  | .axios none => "Failed to generate character"
  | .plain _ => "Failed to generate character"

/-- A successful HTTP response body (`response.data`): the generated
character id plus the optional in-band `error` field the code checks. -/
structure GenResponse where
  id : String
  error : Option String
deriving DecidableEq, Repr

/-- The hook state `generateCharacter` mutates: `loading` and `error`. -/
structure GeneratorState where
  loading : Bool
  error : Option String
deriving DecidableEq, Repr

/-- What one `generateCharacter` call settles to: the final hook state
(after the `finally` reset of `loading`), the promise outcome, and
whether the `axios.post` was reached. -/
structure GenerateOutcome where
  state : GeneratorState
  result : Except ThrownError GenResponse
  httpIssued : Bool
deriving Repr

/-- `generateCharacter` (useCharacterGenerator.ts:31-74) as a function of
the auth token and of the outcome the HTTP request would have: set
`loading`, clear `error`, throw `Error('Authentication required')` when
the token is absent (before any request), otherwise post and check the
in-band `error` field (a non-empty string is truthy and is thrown); any
thrown value is mapped through the catch block into the `error` state and
re-thrown; `finally` resets `loading`. -/
def generateCharacter (token : Option String)
    (httpResult : Except (Option APIErrorData) GenResponse) :
    GenerateOutcome :=
  match token with
  | none =>
    let e := ThrownError.plain "Authentication required"
    ⟨⟨false, some (catchMessage e)⟩, .error e, false⟩
  | some _ =>
    match httpResult with
    | .error respData =>
      let e := ThrownError.axios respData
      ⟨⟨false, some (catchMessage e)⟩, .error e, true⟩
    | .ok resp =>
      match resp.error with
      | some msg =>
        if msg = "" then ⟨⟨false, none⟩, .ok resp, true⟩
        else
          let e := ThrownError.plain msg
          ⟨⟨false, some (catchMessage e)⟩, .error e, true⟩
      | none => ⟨⟨false, none⟩, .ok resp, true⟩

/-- C10: with a null token, `generateCharacter` rejects with the thrown
`Error('Authentication required')`, reaches no HTTP request, leaves the
hook's `error` state set (to the catch block's fallback message, since a
plain `Error` has no axios response), and has `loading = false` once
settled — for every possible would-be HTTP outcome. -/
theorem generateCharacter_null_token (httpResult :
    Except (Option APIErrorData) GenResponse) :
    (generateCharacter none httpResult).result =
      .error (.plain "Authentication required") ∧
    (generateCharacter none httpResult).httpIssued = false ∧
    (generateCharacter none httpResult).state.error =
      some "Failed to generate character" ∧
    (generateCharacter none httpResult).state.loading = false :=
  ⟨rfl, rfl, rfl, rfl⟩

/-! ### Job orchestrator (modelled from the spec) -/

/-- What a generation job produces content for. -/
inductive TargetKind where
  | character
  | animationRender
deriving DecidableEq, Repr

/-- The job lifecycle states. -/
inductive JobState where
  | Queued
  | Processing
  | Completed
  | Failed
  | Cancelled
deriving DecidableEq, Repr

/-- A job is active while `Queued` or `Processing`; the remaining states
are terminal. -/
def JobState.isActive : JobState → Bool
  | .Queued => true
  | .Processing => true
  | _ => false

/-- Modelled from the spec: a `GenerationJob` record of the job table
(the orchestrator lives in the backend service, which is not among the
frontend sources; `startRendering` in useAnimation.ts is only its
caller). -/
structure GenerationJob where
  jobId : Nat
  targetKind : TargetKind
  targetId : Nat
  state : JobState
deriving DecidableEq, Repr

/-- Modelled from the spec: the orchestrator's job table plus a counter
for fresh job ids. -/
structure Orchestrator where
  jobs : List GenerationJob
  nextId : Nat
deriving DecidableEq, Repr

/-- The synchronous submission failure of the spec's taxonomy. -/
inductive SubmitError where
  | Conflict
deriving DecidableEq, Repr

/-- Modelled from the spec: `submit(targetKind, targetId, request)` fails
with `Conflict` when an active (Queued/Processing) job already exists for
the same `(targetKind, targetId)` pair — at-most-one in-flight generation
per target — and otherwise creates a fresh `GenerationJob` in `Queued` and
returns its `jobId`. On `Conflict` no state is produced, so no job is
created. -/
def submit (o : Orchestrator) (k : TargetKind) (tid : Nat) :
    Except SubmitError (Orchestrator × Nat) :=
  if o.jobs.any fun j =>
      j.targetKind == k && j.targetId == tid && j.state.isActive then
    .error .Conflict
  else
    .ok ({ jobs := o.jobs ++ [⟨o.nextId, k, tid, .Queued⟩],
           nextId := o.nextId + 1 }, o.nextId)

/-- Job ids in the table are always below the fresh-id counter. -/
def Orchestrator.WF (o : Orchestrator) : Prop :=
  ∀ j ∈ o.jobs, j.jobId < o.nextId

instance (o : Orchestrator) : Decidable o.WF :=
  inferInstanceAs (Decidable (∀ j ∈ o.jobs, j.jobId < o.nextId))

/-- C3: while an active (Queued/Processing) job exists for a
`(targetKind, targetId)` pair, a second `submit` for that pair fails with
`Conflict` (and hence creates no job); once no job for the pair is active
(in particular after the first job reached Completed/Failed/Cancelled), a
`submit` succeeds and returns a jobId that is fresh — distinct from every
existing job's id. -/
theorem submit_conflict_then_fresh (o : Orchestrator) (k : TargetKind)
    (tid : Nat) (hwf : o.WF) :
    ((∃ j ∈ o.jobs, j.targetKind = k ∧ j.targetId = tid ∧
        j.state.isActive = true) →
      submit o k tid = .error .Conflict) ∧
    ((∀ j ∈ o.jobs, j.targetKind = k → j.targetId = tid →
        j.state.isActive = false) →
      ∃ o' newId, submit o k tid = .ok (o', newId) ∧
        newId ∉ o.jobs.map GenerationJob.jobId ∧
        ∃ j ∈ o'.jobs, j.jobId = newId ∧ j.targetKind = k ∧
          j.targetId = tid ∧ j.state = .Queued) := by
  constructor
  · intro hact
    obtain ⟨j, hj, hk, htid, hst⟩ := hact
    have hany : (o.jobs.any fun j =>
        j.targetKind == k && j.targetId == tid && j.state.isActive) = true := by
      rw [List.any_eq_true]
      refine ⟨j, hj, ?_⟩
      rw [hk, htid, hst]
      simp
    unfold submit
    rw [if_pos hany]
  · intro hterm
    have hany : (o.jobs.any fun j =>
        j.targetKind == k && j.targetId == tid && j.state.isActive) = false := by
      rw [List.any_eq_false]
      intro j hj hc
      simp only [Bool.and_eq_true, beq_iff_eq] at hc
      obtain ⟨⟨hk, htid⟩, hst⟩ := hc
      rw [hterm j hj hk htid] at hst
      cases hst
    refine ⟨{ jobs := o.jobs ++ [⟨o.nextId, k, tid, .Queued⟩],
              nextId := o.nextId + 1 },
      o.nextId, ?_, ?_, ?_⟩
    · unfold submit
      rw [hany]
      rfl
    · intro hmem
      obtain ⟨j, hj, hjid⟩ := List.mem_map.mp hmem
      exact absurd (hjid ▸ hwf j hj) (lt_irrefl o.nextId)
    · exact ⟨⟨o.nextId, k, tid, .Queued⟩,
        List.mem_append_right o.jobs (List.mem_singleton.mpr rfl),
        rfl, rfl, rfl, rfl⟩

/-- Witness for C3: a Processing job for `(animationRender, 42)` makes a
second submit fail with Conflict; with the job Completed instead, submit
succeeds with a fresh id. -/
theorem submit_conflict_then_fresh_witness :
    Orchestrator.WF ⟨[⟨0, .animationRender, 42, .Processing⟩], 1⟩ ∧
    submit ⟨[⟨0, .animationRender, 42, .Processing⟩], 1⟩
      .animationRender 42 = .error .Conflict ∧
    ∃ o' newId, submit ⟨[⟨0, .animationRender, 42, .Completed⟩], 1⟩
        .animationRender 42 = .ok (o', newId) ∧
      newId ∉ ([⟨0, .animationRender, 42, .Completed⟩] :
        List GenerationJob).map GenerationJob.jobId ∧
      ∃ j ∈ o'.jobs, j.jobId = newId ∧ j.targetKind = .animationRender ∧
        j.targetId = 42 ∧ j.state = .Queued :=
  ⟨by decide,
    (submit_conflict_then_fresh ⟨[⟨0, .animationRender, 42, .Processing⟩], 1⟩
      .animationRender 42 (by decide)).1 (by decide),
    (submit_conflict_then_fresh ⟨[⟨0, .animationRender, 42, .Completed⟩], 1⟩
      .animationRender 42 (by decide)).2 (by decide)⟩

end CombatGen
